import Mathlib

/-!
Shallow embedding of the mos-moss repository (src/mos_moss.py and
src/run_moss.py) and proofs about its claimed properties.

The repository is a CLI utility that extracts per-student submissions from a
Canvas bulk ZIP and uploads the extracted source files to the MOSS
similarity-detection service.  The embedding models:

- Python truthiness of the values the scripts test (`or` chains on optional
  strings, the accidental one-element tuple in `list_files`);
- the two submission-filename regexes, with Python's leftmost-greedy
  backtracking semantics (character classes restricted to ASCII);
- the filesystem as a finite association list from paths to nodes, with the
  `glob` calls (including the rule that `*` and `**` do not match names that
  start with a dot), `shutil.rmtree`, `shutil.move`, `os.rmdir`;
- the staging and sending steps (`stage_moss_files`, `send_to_moss`) as
  functions returning either a Python-exception marker or the resulting
  state / effect record.
-/

namespace MosMoss

/-- Python exceptions that the modelled code can raise. -/
inductive PyExn where
  | typeError
  | valueError
  | fileNotFoundError
  | notADirectoryError
  | shutilError
  | osError
deriving DecidableEq

/-- Truthiness of an optional Python string: `None` and `""` are falsy. -/
def pyTruthyStrOpt : Option String → Bool
  | none => false
  | some s => !(s == "")

/-- Python `a or b` on optional strings: `a` if truthy, else `b`. -/
def pyOrV (a b : Option String) : Option String :=
  if pyTruthyStrOpt a then a else b

/-- Truthiness of a Python tuple: a tuple is truthy iff it is nonempty,
regardless of its elements.  This models the accidental trailing comma in the
filter condition of `list_files` in mos_moss.py, which turns the whole
condition into a one-element tuple. -/
def pyTruthyTuple (elems : List Bool) : Bool :=
  !elems.isEmpty

/-! ### Regex engine

A small backtracking matcher sufficient for the two patterns used by the
scripts, `(\w+_\w*_\d+\d+)_(.+)\.` and `(\w+_\w*_\d+\d+)`.  Both patterns are
sequences of single-character classes, greedy stars of character classes, and
capture-group boundaries, so the matcher needs exactly these three elements.
Greedy stars try the longest repetition first and backtrack, which is
Python's leftmost-greedy semantics for these patterns.  `re.match` anchors at
the start of the string and accepts any prefix match, which the matcher
mirrors by succeeding as soon as the pattern list is exhausted.  The Unicode
classes `\w` and `\d` are modelled by their ASCII parts. -/

/-- One element of a compiled regex: a single-character class, a greedy star
over a character class, or a capture-position marker. -/
inductive RElem where
  | cls (p : Char → Bool)
  | star (p : Char → Bool)
  | mark (i : Nat)

/-- Count of leading characters of `s` satisfying `p`. -/
def countLeading (p : Char → Bool) : List Char → Nat
  | [] => 0
  | c :: s => if p c then countLeading p s + 1 else 0

/-- Backtracking matcher.  Returns the recorded mark positions on success.
A star tries consuming `k` characters for `k` from the longest possible run
down to `0`, taking the first continuation that succeeds. -/
def reMatch : List RElem → List Char → Nat → Option (List (Nat × Nat))
  | [], _, _ => some []
  | .cls p :: rs, s, pos =>
    match s with
    | [] => none
    | c :: s' => if p c then reMatch rs s' (pos + 1) else none
  | .mark i :: rs, s, pos => (reMatch rs s pos).map (fun l => (i, pos) :: l)
  | .star p :: rs, s, pos =>
    let n := countLeading p s
    (List.range (n + 1)).findSome? (fun i =>
      reMatch rs (s.drop (n - i)) (pos + (n - i)))

/-- ASCII part of the regex class `\w`. -/
def isWordChar (c : Char) : Bool := c.isAlphanum || c == '_'

/-- ASCII part of the regex class `\d`. -/
def isDigitChar (c : Char) : Bool := c.isDigit

/-- The regex class `.`: any character except a newline. -/
def isAnyChar (c : Char) : Bool := !(c == '\n')

/-- The pattern of mos_moss.py, `(\w+_\w*_\d+\d+)_(.+)\.` — marks 10/11
delimit group 1, marks 20/21 delimit group 2. -/
def mosPattern : List RElem :=
  [.mark 10, .cls isWordChar, .star isWordChar, .cls (· == '_'),
   .star isWordChar, .cls (· == '_'),
   .cls isDigitChar, .star isDigitChar, .cls isDigitChar, .star isDigitChar,
   .mark 11, .cls (· == '_'), .mark 20, .cls isAnyChar, .star isAnyChar,
   .mark 21, .cls (· == '.')]

/-- The pattern of run_moss.py, `(\w+_\w*_\d+\d+)` — marks 0/1 delimit the
whole match (which is also group 0 and group 1). -/
def runPattern : List RElem :=
  [.mark 0, .cls isWordChar, .star isWordChar, .cls (· == '_'),
   .star isWordChar, .cls (· == '_'),
   .cls isDigitChar, .star isDigitChar, .cls isDigitChar, .star isDigitChar,
   .mark 1]

/-- Substring of `s` from position `a` (inclusive) to `b` (exclusive). -/
def sliceStr (s : String) (a b : Nat) : String :=
  String.mk ((s.toList.drop a).take (b - a))

/-- `re.match` of the mos_moss.py pattern: `some (group1, group2)` on a
match, `none` otherwise. -/
def pyMatchMos (s : String) : Option (String × String) :=
  match reMatch mosPattern s.toList 0 with
  | none => none
  | some marks =>
    match marks.lookup 10, marks.lookup 11, marks.lookup 20, marks.lookup 21 with
    | some a, some b, some c, some d => some (sliceStr s a b, sliceStr s c d)
    | _, _, _, _ => none

/-- `re.match` of the run_moss.py pattern: `some match0` (the whole matched
prefix) on a match, `none` otherwise. -/
def pyMatchRun (s : String) : Option String :=
  match reMatch runPattern s.toList 0 with
  | none => none
  | some marks =>
    match marks.lookup 0, marks.lookup 1 with
    | some a, some b => some (sliceStr s a b)
    | _, _ => none

/-- Subscripting the result of `re.match`: `None[i]` raises `TypeError`;
a match object yields group 1 or group 2 of the mos-pattern match. -/
def matchSubscript (res : Option (String × String)) (i : Nat) :
    Except PyExn String :=
  match res with
  | none => .error .typeError
  | some (g1, g2) => .ok (if i == 2 then g2 else g1)

/-- Folder-name derivation of `unzip_canvas_submission` in mos_moss.py:
`res = re.match(...)`; `folder_name = res[2] if original_name else res[1]`
inside `try`, with `except TypeError: folder_name = submission.filename`.
Only `TypeError` is caught; any other exception would propagate. -/
def mos_folder_name (original_name : Bool) (filename : String) : String :=
  let res := pyMatchMos filename
  let attempt := matchSubscript res (if original_name then 2 else 1)
  match attempt with
  | .ok v => v
  | .error _ => filename

/-- Folder-name derivation of `unzip_canvas_submission` in run_moss.py:
`None` when `original_name` is set, otherwise group 0 of its regex when it
matches and `None` when it does not. -/
def run_folder_name (original_name : Bool) (filename : String) : Option String :=
  if original_name then none
  else
    match pyMatchRun filename with
    | some g0 => some g0
    | none => none

/-! ### Filesystem model

The filesystem under a working directory is a finite association list from
paths (lists of name components, relative to that directory) to nodes
(directories, or files with a size).  All operations the scripts perform —
`glob.glob(..., recursive=True)`, `os.listdir`, `os.path.isfile`,
`os.path.getsize`, `shutil.rmtree`, `shutil.move`, `os.rmdir` — are list
manipulations on this representation.  In a real filesystem every strict
prefix of a present path is a present directory and names are unique within
a directory; theorems assume those facts where they matter. -/

/-- A path, as the list of its name components. -/
abbrev FPath := List String

/-- A filesystem node: a directory or a file with its size in bytes. -/
inductive Node where
  | dirNode
  | fileNode (size : Nat)
deriving DecidableEq

/-- A filesystem: a finite map from paths to nodes, as an association list. -/
abbrev FS := List (FPath × Node)

/-- Node at a path, if present (`None` models a nonexistent path). -/
def findPath (fs : FS) (p : FPath) : Option Node :=
  match fs with
  | [] => none
  | e :: rest => if e.1 == p then some e.2 else findPath rest p

/-- Python `s.endswith(t)`, on the characters of the strings. -/
def strEndsWith (s t : String) : Bool :=
  t.toList.isSuffixOf s.toList

/-- Python `s.lower()`, on the characters of the string. -/
def strLower (s : String) : String :=
  String.mk (s.toList.map Char.toLower)

/-- Whether a name component starts with a dot.  Python's `glob` wildcards
`*` and `**` do not match such names. -/
def hiddenName (s : String) : Bool :=
  match s.toList with
  | c :: _ => c == '.'
  | [] => false

/-- Names of the top-level entries, i.e. `os.listdir` of the root. -/
def topNames (fs : FS) : List String :=
  fs.filterMap (fun e =>
    match e.1 with
    | [n] => some n
    | _ => none)

/-- Names of the entries directly inside directory `d`, i.e.
`os.listdir` of `d`. -/
def childNames (fs : FS) (d : FPath) : List String :=
  fs.filterMap (fun e =>
    if e.1.length == d.length + 1 && d.isPrefixOf e.1 then e.1.getLast?
    else none)

/-- Whether a path is matched by the pattern `root/**/*{ext}` of
`glob.glob(..., recursive=True)`: every component crossed by `**` must not
start with a dot, and the final component must not start with a dot (the
pattern `*{ext}` begins with a wildcard) and must end with `ext`.  The
pattern has no trailing slash, so it matches files and directories alike. -/
def pathMatchesExt (p : FPath) (ext : String) : Bool :=
  match p.getLast? with
  | none => false
  | some name =>
    !hiddenName name && strEndsWith name ext && p.dropLast.all (fun c => !hiddenName c)

/-- `glob.glob(f"{root}/**/*{ext}", recursive=True)` over the modelled
filesystem: the paths of all matching entries. -/
def globExt (fs : FS) (ext : String) : List FPath :=
  fs.filterMap (fun e => if pathMatchesExt e.1 ext then some e.1 else none)

/-- Whether a path is matched by the pattern `root/**/__MACOSX`: the final
component is literally `__MACOSX` and every component crossed by `**` does
not start with a dot. -/
def isMacPath (p : FPath) : Bool :=
  match p.getLast? with
  | none => false
  | some name => name == "__MACOSX" && p.dropLast.all (fun c => !hiddenName c)

/-- `glob.glob(f"{path}/**/__MACOSX", recursive=True)`. -/
def macGlobMatches (fs : FS) : List FPath :=
  fs.filterMap (fun e => if isMacPath e.1 then some e.1 else none)

/-- `shutil.rmtree`: removes the directory at `p` and everything below it;
raises `FileNotFoundError` if `p` does not exist and `NotADirectoryError`
if it is a file. -/
def rmtreeFS (fs : FS) (p : FPath) : Except PyExn FS :=
  match findPath fs p with
  | none => .error .fileNotFoundError
  | some (Node.fileNode _) => .error .notADirectoryError
  | some Node.dirNode => .ok (fs.filter (fun e => !p.isPrefixOf e.1))

/-- `cleanup_files` of mos_moss.py: glob for `**/__MACOSX` under the path,
then `shutil.rmtree` each match in order. -/
def cleanup_files (fs : FS) : Except PyExn FS :=
  (macGlobMatches fs).foldlM rmtreeFS fs

/-- Rename the subtree rooted at `src` to `dst`: every entry whose path
extends `src` has that prefix replaced by `dst`. -/
def movePaths (src dst : FPath) (fs : FS) : FS :=
  fs.map (fun e =>
    if src.isPrefixOf e.1 then (dst ++ e.1.drop src.length, e.2) else e)

/-- `shutil.move(src, dstDir)` where `dstDir` is an existing directory: the
real destination is `dstDir/basename(src)`; if that path already exists the
call raises `shutil.Error`, otherwise the subtree is renamed. -/
def shutilMove (fs : FS) (src : FPath) (dstDir : FPath) : Except PyExn FS :=
  match src.getLast? with
  | none => .error .osError
  | some b =>
    let realDst := dstDir ++ [b]
    if (findPath fs realDst).isSome then .error .shutilError
    else .ok (movePaths src realDst fs)

/-- `os.rmdir`: removes the directory at `p`; raises if `p` is missing, is a
file, or still has entries below it. -/
def rmdirFS (fs : FS) (p : FPath) : Except PyExn FS :=
  match findPath fs p with
  | none => .error .fileNotFoundError
  | some (Node.fileNode _) => .error .notADirectoryError
  | some Node.dirNode =>
    if fs.any (fun e => p.isPrefixOf e.1 && !(e.1 == p)) then .error .osError
    else .ok (fs.filter (fun e => !(e.1 == p)))

/-- `flatten_folder` of mos_moss.py, with the modelled filesystem rooted at
the destination: if `os.listdir(destination)` has exactly one entry, move
every item inside that entry up into the destination with `shutil.move`,
then `os.rmdir` the entry.  `os.listdir` of a file raises
`NotADirectoryError`. -/
def flatten_folder (fs : FS) : Except PyExn FS :=
  match topNames fs with
  | [n] =>
    match findPath fs [n] with
    | none => .error .fileNotFoundError
    | some (Node.fileNode _) => .error .notADirectoryError
    | some Node.dirNode => do
      let items := childNames fs [n]
      let fs' ← items.foldlM (fun acc f => shutilMove acc [n, f] []) fs
      rmdirFS fs' [n]
  | _ => .ok fs

/-- Combined effect on one path of the moves of `flatten_folder` for the
children listed in `ds`: a path `n/f/...` with `f ∈ ds` loses its leading
`n`. -/
def moveKey (n : String) (ds : List String) (k : FPath) : FPath :=
  match k with
  | m :: f :: rest => if m == n && ds.contains f then f :: rest else k
  | _ => k

/-- `moveKey` applied to every entry of the filesystem. -/
def applyMoves (n : String) (ds : List String) (fs : FS) : FS :=
  fs.map (fun e => (moveKey n ds e.1, e.2))

/-- Whether every path of the form `n/f/...` in the filesystem has `f`
listed by `os.listdir` of `n` — true of every real filesystem, where a
path exists only when all its prefixes do. -/
def childClosed (fs : FS) (n : String) : Bool :=
  fs.all (fun e =>
    match e.1 with
    | m :: f :: _ => !(m == n) || (childNames fs [n]).contains f
    | _ => true)

/-- The filesystem `flatten_folder` produces when the single top entry `n`
is a directory: every path below `n` loses its leading component and the
entry `n` itself is removed. -/
def flattenResult (fs : FS) (n : String) : FS :=
  (applyMoves n (childNames fs [n]) fs).filter (fun e => !(e.1 == [n]))

/-- Whether any entry at any depth (hidden or not) is named `__MACOSX`. -/
def anyMacName (fs : FS) : Bool :=
  fs.any (fun e => e.1.getLast? == some "__MACOSX")

/-! ### File selection -/

/-- The `LANGUAGE_EXTENSIONS` table, identical in both scripts. -/
def LANGUAGE_EXTENSIONS : List (String × List String) :=
  [("java", ["java"]), ("cpp", [".cpp", ".h", ".hpp"])]

/-- `LANGUAGE_EXTENSIONS.get(language.lower(), "")` of mos_moss.py: the
default is the empty string, and iterating over an empty string yields no
extensions, so an unknown language yields the empty list. -/
def langExts (language : String) : List String :=
  (LANGUAGE_EXTENSIONS.lookup (strLower language)).getD []

/-- `list_files` of mos_moss.py.  The filter condition in the source ends
with a trailing comma, so the `if` tests a one-element tuple — which is
always truthy — rather than the conjunction itself; the conjunction the
source spells out is `keepFileCond` below, and the tuple around it is
modelled by `pyTruthyTuple`. -/
def keepFileCond (fs : FS) (p : FPath) : Bool :=
  match findPath fs p, p.getLast? with
  | some (Node.fileNode sz), some name =>
    !strEndsWith name "pdf" && !strEndsWith name "jar" && decide (0 < sz)
  | _, _ => false

/-- `list_files(folder, language)` of mos_moss.py over the filesystem rooted
at `folder`. -/
def list_files (fs : FS) (language : String) : List FPath :=
  let files := (langExts language).foldl (fun acc ext => acc ++ globExt fs ext) []
  files.filter (fun f => pyTruthyTuple [keepFileCond fs f])

/-- The file-selection step of `stage_moss_files` in run_moss.py: the
unknown-language default is `[""]` (so the glob pattern is `*` and matches
every non-hidden entry), and the filter condition has no trailing comma, so
it works as written. -/
def run_moss_stage_selected (fs : FS) (language : String) : List FPath :=
  let exts := (LANGUAGE_EXTENSIONS.lookup (strLower language)).getD [""]
  (exts.foldl (fun acc ext => acc ++ globExt fs ext) []).filter
    (fun f => keepFileCond fs f)

/-! ### Staging and sending -/

/-- The state accumulated in the `mosspy.Moss` client object by
`stage_moss_files` in mos_moss.py. -/
structure Moss where
  user_id : Option String
  language : String
  files : List String
  baseFiles : List String
  commentStr : String
  directoryMode : Nat
deriving DecidableEq

/-- `create_moss_comments` of mos_moss.py: each truthy keyword argument
contributes a line; the lines are joined with a double break. -/
def create_moss_comments (base_files solutions : Option String)
    (max_submissions : Nat) (submission_folders : List String) : String :=
  let msg :=
    (if pyTruthyStrOpt base_files then
      ["<b>Base files:</b> " ++ base_files.getD ""] else [])
    ++ (if pyTruthyStrOpt solutions then
      ["<b>Solutions:</b> " ++ solutions.getD ""] else [])
    ++ (if max_submissions != 0 then
      ["<b>Max submissions:</b> " ++ toString max_submissions]
      ++ (if submission_folders.isEmpty then []
          else ["<b>Submissions in this batch:</b><br>"
                ++ String.intercalate "<br>" submission_folders])
      else [])
  String.intercalate "<br><br>" msg

/-- The submission-folder sampling of `stage_moss_files` in mos_moss.py:
when `max_submissions` is truthy, shuffle the globbed folder list and take
the first `max_submissions` of it (`shuffled` is the shuffle's result, an
arbitrary permutation of the globbed folders); otherwise the single folder
`zip_output` is used. -/
def sampledBatch (zip_output : String) (shuffled : List String)
    (max_submissions : Nat) : List String :=
  if max_submissions != 0 then shuffled.take max_submissions else [zip_output]

/-- `stage_moss_files` of mos_moss.py.  `lf folder` stands for
`list_files(folder, language)` on the ambient filesystem.  Base files and
reference solutions are each checked to produce at least one match, raising
`FileNotFoundError` otherwise; base files go to `moss.addBaseFile`, solution
files to `moss.addFile`. -/
def stage_moss_files (lf : String → List String) (zip_output language : String)
    (shuffled : List String) (max_submissions : Nat)
    (base_files solutions : Option String) : Except PyExn Moss :=
  let submission_folders := sampledBatch zip_output shuffled max_submissions
  let files := submission_folders.foldl (fun acc folder => acc ++ lf folder) []
  let m0 : Moss :=
    { user_id := none, language := language, files := files,
      baseFiles := [], commentStr := "", directoryMode := 0 }
  let step1 : Except PyExn Moss :=
    if pyTruthyStrOpt base_files then
      let bfs := lf (base_files.getD "")
      if bfs.isEmpty then .error .fileNotFoundError
      else .ok { m0 with baseFiles := m0.baseFiles ++ bfs }
    else .ok m0
  match step1 with
  | .error e => .error e
  | .ok m1 =>
    let step2 : Except PyExn Moss :=
      if pyTruthyStrOpt solutions then
        let sfs := lf (solutions.getD "")
        if sfs.isEmpty then .error .fileNotFoundError
        else .ok { m1 with files := m1.files ++ sfs }
      else .ok m1
    match step2 with
    | .error e => .error e
    | .ok m2 =>
      .ok { m2 with
            commentStr := create_moss_comments base_files solutions
              max_submissions submission_folders,
            directoryMode := 1 }

/-- The module constant `MOSS_ID` of mos_moss.py. -/
def MOSS_ID : String := "1234"

/-- The externally visible effects of one `send_to_moss` call in
mos_moss.py: the user id the upload was sent with, the directories created
with `mkdir(parents=True, exist_ok=True)`, the path the HTML report snapshot
was saved to, and the directory the report assets were downloaded into (if
any). -/
structure SendResult where
  sentWithId : String
  createdDirs : List String
  savedHtmlAt : String
  reportDownloadedTo : Option String
deriving DecidableEq

/-- `send_to_moss` of mos_moss.py.  The user id is resolved as
`user_id or os.getenv("user_id") or MOSS_ID`; if the result is falsy a
`ValueError` is raised before anything is uploaded.  Otherwise the upload
happens, the report page is saved to `report_path/report{count}.html`, and —
unless `no_report` is set — the full report is downloaded into
`report_path/report{count}`. -/
def send_to_moss (user_id envUserId : Option String) (report_path : String)
    (no_report : Bool) (count : Nat) : Except PyExn SendResult :=
  let uid := pyOrV (pyOrV user_id envUserId) (some MOSS_ID)
  if !pyTruthyStrOpt uid then .error .valueError
  else
    let htmlPath := report_path ++ "/report" ++ toString count ++ ".html"
    if no_report then
      .ok { sentWithId := uid.getD "", createdDirs := [report_path],
            savedHtmlAt := htmlPath, reportDownloadedTo := none }
    else
      .ok { sentWithId := uid.getD "",
            createdDirs := [report_path,
              report_path ++ "/report" ++ toString count],
            savedHtmlAt := htmlPath,
            reportDownloadedTo :=
              some (report_path ++ "/report" ++ toString count) }

/-! ### Concrete filesystems used by counterexamples and witnesses -/

/-- A folder containing a single zero-byte Java file. -/
def fsEmptyJava : FS := [(["Main.java"], Node.fileNode 0)]

/-- A folder whose only `__MACOSX` folder sits inside a hidden directory. -/
def fsHiddenMac : FS :=
  [([".cfg"], Node.dirNode), ([".cfg", "__MACOSX"], Node.dirNode)]

/-- A folder with one `__MACOSX` folder next to real content. -/
def fsMacWitness : FS :=
  [(["__MACOSX"], Node.dirNode), (["src"], Node.dirNode),
   (["src", "A.java"], Node.fileNode 3)]

/-- A destination holding a single wrapping folder `a` that contains an
entry also named `a`. -/
def fsWrapClash : FS :=
  [(["a"], Node.dirNode), (["a", "a"], Node.fileNode 1)]

/-- A destination holding a single wrapping folder `wrap` with two items,
one of them a subdirectory with a file. -/
def fsWrapOk : FS :=
  [(["wrap"], Node.dirNode), (["wrap", "A.java"], Node.fileNode 5),
   (["wrap", "lib"], Node.dirNode), (["wrap", "lib", "B.java"], Node.fileNode 7)]

/-- A folder containing one nonempty text file. -/
def fsOneTxt : FS := [(["a.txt"], Node.fileNode 3)]

/-- A listing oracle for the staging witness: the folder `base` has no
matches, every other folder has one. -/
def lfWitness : String → List String :=
  fun s => if s == "base" then [] else ["Main.java"]

/-! ### Helper lemmas -/

/-- The resolved MOSS user id is always truthy (the module constant
`MOSS_ID = "1234"` is the final, non-empty fallback), and it is the argument
when that is truthy, else the environment value when that is truthy, else
the constant. -/
theorem pyOrV_moss_truthy (u e : Option String) :
    pyTruthyStrOpt (pyOrV (pyOrV u e) (some MOSS_ID)) = true ∧
    (pyOrV (pyOrV u e) (some MOSS_ID)).getD "" =
      (if pyTruthyStrOpt u then u.getD ""
       else if pyTruthyStrOpt e then e.getD "" else MOSS_ID) := by
  by_cases hu : pyTruthyStrOpt u = true
  · constructor <;> simp [pyOrV, hu]
  · rw [Bool.not_eq_true] at hu
    by_cases he : pyTruthyStrOpt e = true
    · constructor <;> simp [pyOrV, hu, he]
    · rw [Bool.not_eq_true] at he
      simp only [pyOrV, hu, he, Bool.false_eq_true, if_false]
      exact ⟨rfl, rfl⟩

/-- Unfolding equation of `findPath` on a nonempty filesystem. -/
theorem findPath_cons (e : FPath × Node) (rest : FS) (q : FPath) :
    findPath (e :: rest) q = if e.1 == q then some e.2 else findPath rest q :=
  rfl

/-- A path is absent exactly when no entry carries it as its key. -/
theorem findPath_eq_none_iff (fs : FS) (q : FPath) :
    findPath fs q = none ↔ ∀ e ∈ fs, e.1 ≠ q := by
  induction fs with
  | nil =>
    constructor
    · intro _ e he
      exact absurd he (List.not_mem_nil e)
    · intro _
      rfl
  | cons e rest ih =>
    rw [findPath_cons, List.forall_mem_cons]
    by_cases hbeq : (e.1 == q) = true
    · have he : e.1 = q := by simpa using hbeq
      rw [if_pos hbeq]
      constructor
      · intro hcontra
        exact Option.noConfusion hcontra
      · rintro ⟨h1, _⟩
        exact absurd he h1
    · have hne : e.1 ≠ q := by simpa using hbeq
      rw [if_neg hbeq, ih]
      constructor
      · intro h1
        exact ⟨hne, h1⟩
      · intro h1
        exact h1.2

/-- A found node comes from an entry of the filesystem. -/
theorem findPath_mem {fs : FS} {q : FPath} {nd : Node}
    (h : findPath fs q = some nd) : (q, nd) ∈ fs := by
  induction fs with
  | nil => simp [findPath] at h
  | cons e rest ih =>
    obtain ⟨a, b⟩ := e
    by_cases hbeq : (a == q) = true
    · have ha : a = q := by simpa using hbeq
      have hb : b = nd := by
        have := h
        rw [findPath_cons] at this
        simpa [hbeq] using this
      subst ha; subst hb
      exact List.mem_cons_self _ _
    · have hb : (a == q) = false := by simpa using hbeq
      have h2 : findPath rest q = some nd := by
        have := h
        rw [findPath_cons] at this
        simpa [hb] using this
      exact List.mem_cons_of_mem _ (ih h2)

/-- Filtering with a predicate that keeps every entry keyed `q` does not
change the node found at `q`. -/
theorem findPath_filter_of_keep (pk : FPath × Node → Bool) (q : FPath) :
    ∀ fs : FS, (∀ e ∈ fs, e.1 = q → pk e = true) →
      findPath (fs.filter pk) q = findPath fs q := by
  intro fs
  induction fs with
  | nil => intro _; rfl
  | cons e rest ih =>
    intro h
    have hrest : ∀ x ∈ rest, x.1 = q → pk x = true :=
      fun x hx => h x (List.mem_cons_of_mem _ hx)
    rw [List.filter_cons]
    by_cases hbeq : (e.1 == q) = true
    · have hk : pk e = true := h e (List.mem_cons_self _ _) (by simpa using hbeq)
      rw [if_pos hk]
      simp [findPath_cons, hbeq]
    · have hb : (e.1 == q) = false := by simpa using hbeq
      by_cases hk : pk e = true
      · rw [if_pos hk]
        simp only [findPath_cons, hb, Bool.false_eq_true, if_false]
        exact ih hrest
      · rw [if_neg hk]
        rw [ih hrest]
        simp [findPath_cons, hb]

/-- Filtering with a predicate that drops every entry keyed `q` removes the
path `q`. -/
theorem findPath_filter_of_drop (pk : FPath × Node → Bool) (q : FPath) :
    ∀ fs : FS, (∀ e ∈ fs, e.1 = q → pk e = false) →
      findPath (fs.filter pk) q = none := by
  intro fs
  induction fs with
  | nil => intro _; rfl
  | cons e rest ih =>
    intro h
    have hrest : ∀ x ∈ rest, x.1 = q → pk x = false :=
      fun x hx => h x (List.mem_cons_of_mem _ hx)
    rw [List.filter_cons]
    by_cases hk : pk e = true
    · have hne : e.1 ≠ q := fun hc => by
        have := h e (List.mem_cons_self _ _) hc
        rw [this] at hk
        exact absurd hk (by simp)
      have hb : (e.1 == q) = false := by simpa using hne
      rw [if_pos hk]
      simp only [findPath_cons, hb, Bool.false_eq_true, if_false]
      exact ih hrest
    · rw [if_neg hk]
      exact ih hrest

/-- Membership in the `__MACOSX` glob result: the path is present in the
filesystem and is matched by the pattern. -/
theorem mem_macGlobMatches {fs : FS} {p : FPath} :
    p ∈ macGlobMatches fs ↔ (∃ nd, (p, nd) ∈ fs) ∧ isMacPath p = true := by
  unfold macGlobMatches
  rw [List.mem_filterMap]
  constructor
  · rintro ⟨e, he, hf⟩
    by_cases hm : isMacPath e.1 = true
    · rw [if_pos hm] at hf
      have h1 : e.1 = p := Option.some.inj hf
      refine ⟨⟨e.2, ?_⟩, h1 ▸ hm⟩
      rw [← h1, Prod.mk.eta]
      exact he
    · rw [if_neg hm] at hf
      exact absurd hf (by simp)
  · rintro ⟨⟨nd, hmem⟩, hmac⟩
    exact ⟨(p, nd), hmem, by simp [hmac]⟩

/-- Removing, in order, a list of present directories that are pairwise not
nested in one another succeeds and leaves none of them present; the
surviving entries all come from the original filesystem. -/
theorem foldlM_rmtree_ok (L : List FPath) :
    ∀ fs : FS, (∀ p ∈ L, findPath fs p = some Node.dirNode) →
    L.Pairwise (fun p q => p.isPrefixOf q = false ∧ q.isPrefixOf p = false) →
    ∃ fs', L.foldlM rmtreeFS fs = Except.ok fs'
      ∧ (∀ e ∈ fs', e ∈ fs) ∧ (∀ p ∈ L, findPath fs' p = none) := by
  induction L with
  | nil =>
    intro fs _ _
    exact ⟨fs, rfl, fun e he => he, fun p hp => absurd hp (List.not_mem_nil p)⟩
  | cons p L ih =>
    intro fs hdir hpw
    obtain ⟨hp, hrest⟩ := List.pairwise_cons.mp hpw
    have hfp : findPath fs p = some Node.dirNode :=
      hdir p (List.mem_cons_self _ _)
    have hstep : rmtreeFS fs p =
        Except.ok (fs.filter (fun e => !p.isPrefixOf e.1)) := by
      unfold rmtreeFS
      rw [hfp]
    have hdir' : ∀ q ∈ L,
        findPath (fs.filter (fun e => !p.isPrefixOf e.1)) q =
          some Node.dirNode := by
      intro q hq
      obtain ⟨h1, _⟩ := hp q hq
      have hkeep : ∀ e ∈ fs, e.1 = q → (!p.isPrefixOf e.1) = true := by
        intro e he heq
        rw [heq, h1]
        rfl
      rw [findPath_filter_of_keep _ q fs hkeep]
      exact hdir q (List.mem_cons_of_mem _ hq)
    obtain ⟨fs', hok, hsub, hnone⟩ :=
      ih (fs.filter (fun e => !p.isPrefixOf e.1)) hdir' hrest
    refine ⟨fs', ?_, ?_, ?_⟩
    · rw [List.foldlM_cons, hstep]
      exact hok
    · intro e he
      exact List.mem_of_mem_filter (hsub e he)
    · intro q hq
      rcases List.mem_cons.mp hq with rfl | hq'
      · have h₁ : findPath (fs.filter (fun e => !q.isPrefixOf e.1)) q = none := by
          apply findPath_filter_of_drop
          intro e he heq
          rw [heq]
          simp [List.isPrefixOf_iff_prefix]
        rw [findPath_eq_none_iff] at h₁ ⊢
        intro e he
        exact h₁ e (hsub e he)
      · exact hnone q hq'

/-! ### Claim theorems -/

/-- C6 counterexample: in a destination whose only `__MACOSX` folder sits
inside a hidden (dot-prefixed) directory, `cleanup_files` is a no-op — the
recursive glob does not cross hidden components — and a `__MACOSX` folder
remains at depth two, contradicting the claim that none remains at any
depth. -/
theorem c6_counterexample :
    cleanup_files fsHiddenMac = Except.ok fsHiddenMac
  ∧ anyMacName fsHiddenMac = true :=
  ⟨rfl, rfl⟩

/-- C6 amended: provided every glob match is a directory and no matched
`__MACOSX` folder is nested below another one (otherwise the sequential
`shutil.rmtree` can raise on an already-removed inner match),
`cleanup_files` succeeds and afterwards no `__MACOSX` folder reachable
without crossing a hidden (dot-prefixed) directory remains; `__MACOSX`
folders inside hidden directories are invisible to the glob and may
remain. -/
theorem c6_amended (fs : FS)
    (hdirs : ∀ p ∈ macGlobMatches fs, findPath fs p = some Node.dirNode)
    (hsep : (macGlobMatches fs).Pairwise
      (fun p q => p.isPrefixOf q = false ∧ q.isPrefixOf p = false)) :
    ∃ fs', cleanup_files fs = Except.ok fs' ∧ macGlobMatches fs' = [] := by
  obtain ⟨fs', hok, hsub, hnone⟩ :=
    foldlM_rmtree_ok (macGlobMatches fs) fs hdirs hsep
  refine ⟨fs', hok, ?_⟩
  rw [List.eq_nil_iff_forall_not_mem]
  intro p hpmem
  obtain ⟨⟨nd, hmem⟩, hmac⟩ := mem_macGlobMatches.mp hpmem
  have hmemfs : (p, nd) ∈ fs := hsub _ hmem
  have hpfs : p ∈ macGlobMatches fs :=
    mem_macGlobMatches.mpr ⟨⟨nd, hmemfs⟩, hmac⟩
  have h0 := hnone p hpfs
  rw [findPath_eq_none_iff] at h0
  exact h0 (p, nd) hmem rfl

/-- C6 witness: a destination with one visible `__MACOSX` folder next to
real content; cleanup removes it. -/
theorem c6_amended_witness :
    ∃ fs', cleanup_files fsMacWitness = Except.ok fs'
      ∧ macGlobMatches fs' = [] :=
  c6_amended fsMacWitness (by decide) (by decide)

/-- C1: file selection is claimed never to include zero-byte files, PDFs, or
archives.  In mos_moss.py the filter condition of `list_files` carries a
trailing comma, so the `if` tests a nonempty tuple — always truthy — and a
zero-byte `Main.java` passes the filter even though the spelled-out
condition `keepFileCond` rejects it.  The copy of the filter in run_moss.py
has no trailing comma and does reject the file. -/
theorem c1_filter_tuple_eval :
    list_files fsEmptyJava "java" = [["Main.java"]]
  ∧ keepFileCond fsEmptyJava ["Main.java"] = false
  ∧ run_moss_stage_selected fsEmptyJava "java" = [] :=
  ⟨rfl, rfl, rfl⟩

/-- C2 counterexample: in run_moss.py, on the member name `ab` the regex
does not match and the derived folder name is `None`, not the raw member
filename, so the claim's fallback description is false for that version. -/
theorem c2_counterexample :
    pyMatchRun "ab" = none
  ∧ run_folder_name false "ab" = none
  ∧ run_folder_name false "ab" ≠ some "ab" :=
  ⟨rfl, rfl, by decide⟩

/-- C2 amended: in mos_moss.py the claim holds — on a regex match the
folder name is the captured group (group 2 when keeping original names,
group 1 otherwise) and on no match the narrowly caught `TypeError` makes it
the raw member filename; in run_moss.py, however, the folder name is `None`
whenever the keep-original-name option is set and also when its regex does
not match. -/
theorem c2_amended (original_name : Bool) (filename : String) :
    (∀ g1 g2, pyMatchMos filename = some (g1, g2) →
      mos_folder_name original_name filename =
        (if original_name then g2 else g1))
  ∧ (pyMatchMos filename = none →
      mos_folder_name original_name filename = filename)
  ∧ run_folder_name true filename = none
  ∧ (∀ g0, pyMatchRun filename = some g0 →
      run_folder_name false filename = some g0)
  ∧ (pyMatchRun filename = none → run_folder_name false filename = none) := by
  refine ⟨?_, ?_, rfl, ?_, ?_⟩
  · intro g1 g2 h
    cases original_name <;> simp [mos_folder_name, matchSubscript, h]
  · intro h
    cases original_name <;> simp [mos_folder_name, matchSubscript, h]
  · intro g0 h
    simp [run_folder_name, h]
  · intro h
    simp [run_folder_name, h]

/-- C2 witness: concrete member names exercising both the match and the
no-match branches of the amended claim. -/
theorem c2_amended_witness :
    mos_folder_name false "a_b_12_x.y" = "a_b_12"
  ∧ mos_folder_name true "a_b_12_x.y" = "x"
  ∧ run_folder_name false "x_y_12.c" = some "x_y_12"
  ∧ mos_folder_name false "ab" = "ab" :=
  ⟨(c2_amended false "a_b_12_x.y").1 "a_b_12" "x" rfl,
   (c2_amended true "a_b_12_x.y").1 "a_b_12" "x" rfl,
   (c2_amended false "x_y_12.c").2.2.2.1 "x_y_12" rfl,
   (c2_amended false "ab").2.1 rfl⟩

/-- C3 counterexample: with no user-id argument and no environment value,
`send_to_moss` does not raise — the hardcoded constant `MOSS_ID = "1234"`
is the final fallback of the `or` chain, so the upload proceeds with id
`1234` and the `ValueError` branch is unreachable. -/
theorem c3_counterexample :
    send_to_moss none none "out" false 1 =
      Except.ok { sentWithId := "1234", createdDirs := ["out", "out/report1"],
                  savedHtmlAt := "out/report1.html",
                  reportDownloadedTo := some "out/report1" } :=
  rfl

/-- C3 amended: `send_to_moss` resolves the user id as argument `or`
environment value `or` the module constant `MOSS_ID = "1234"`; the
environment variable is the first fallback, but because the constant is
non-empty the resolved id is always truthy, the missing-credential
`ValueError("No MOSS ID found")` check never fires, and the upload is always
attempted. -/
theorem c3_amended (u e : Option String) (rp : String) (nr : Bool) (c : Nat) :
    ∃ r, send_to_moss u e rp nr c = Except.ok r
      ∧ r.sentWithId =
          (if pyTruthyStrOpt u then u.getD ""
           else if pyTruthyStrOpt e then e.getD "" else MOSS_ID) := by
  obtain ⟨ht, hg⟩ := pyOrV_moss_truthy u e
  simp only [send_to_moss, ht, Bool.not_true, Bool.false_eq_true, if_false]
  cases nr
  · exact ⟨_, rfl, hg⟩
  · exact ⟨_, rfl, hg⟩

/-- C4: when a positive batch size `n` is requested, the batch is the first
`n` elements of a shuffle (an arbitrary permutation) of the available
folders: it has no duplicates, its length is `min n` (number of available
folders), and when `n` is at least the number of available folders it is the
whole shuffled list, a permutation of all available folders. -/
theorem c4_sampled_batch (zip_output : String) (folders shuffled : List String)
    (n : Nat) (hperm : shuffled.Perm folders) (hnd : folders.Nodup)
    (hn : 0 < n) :
    (sampledBatch zip_output shuffled n).Nodup
  ∧ (sampledBatch zip_output shuffled n).length = min n folders.length
  ∧ (folders.length ≤ n →
      sampledBatch zip_output shuffled n = shuffled
      ∧ (sampledBatch zip_output shuffled n).Perm folders) := by
  have hb : sampledBatch zip_output shuffled n = shuffled.take n := by
    unfold sampledBatch
    rw [if_pos]
    simpa using hn.ne'
  have hshuf : shuffled.Nodup := hperm.nodup_iff.mpr hnd
  refine ⟨?_, ?_, ?_⟩
  · rw [hb]
    exact (List.take_sublist n shuffled).nodup hshuf
  · rw [hb, List.length_take, hperm.length_eq]
  · intro hle
    have hlen : shuffled.length ≤ n := hperm.length_eq ▸ hle
    have : shuffled.take n = shuffled := List.take_of_length_le hlen
    rw [hb, this]
    exact ⟨rfl, hperm⟩

/-- C4 witness: two available folders, batch size three. -/
theorem c4_sampled_batch_witness :
    (sampledBatch "z" ["b", "a"] 3).Nodup
  ∧ (sampledBatch "z" ["b", "a"] 3).length = min 3 (["a", "b"] : List String).length
  ∧ ((["a", "b"] : List String).length ≤ 3 →
      sampledBatch "z" ["b", "a"] 3 = ["b", "a"]
      ∧ (sampledBatch "z" ["b", "a"] 3).Perm ["a", "b"]) :=
  c4_sampled_batch "z" ["a", "b"] ["b", "a"] 3 (by decide) (by decide)
    (by decide)

/-- C5: `stage_moss_files` raises `FileNotFoundError` when a (truthy)
base-files path lists no files, and likewise for a reference-solutions path;
when the listings are nonempty no such error is raised, every base-file
match is added to the base-file set and every solution match to the upload
set. -/
theorem c5_required_files_check (lf : String → List String)
    (zo lang : String) (sh : List String) (ms : Nat) :
    (∀ bp sols, bp ≠ "" → lf bp = [] →
      stage_moss_files lf zo lang sh ms (some bp) sols =
        Except.error PyExn.fileNotFoundError)
  ∧ (∀ base sp, sp ≠ "" → (∀ b, base = some b → b ≠ "" → lf b ≠ []) →
      lf sp = [] →
      stage_moss_files lf zo lang sh ms base (some sp) =
        Except.error PyExn.fileNotFoundError)
  ∧ (∀ bp, bp ≠ "" → lf bp ≠ [] →
      ∃ m, stage_moss_files lf zo lang sh ms (some bp) none = Except.ok m
        ∧ m.baseFiles = lf bp)
  ∧ (∀ bp sp, bp ≠ "" → sp ≠ "" → lf bp ≠ [] → lf sp ≠ [] →
      ∃ m, stage_moss_files lf zo lang sh ms (some bp) (some sp) = Except.ok m
        ∧ m.baseFiles = lf bp ∧ ∀ f ∈ lf sp, f ∈ m.files) := by
  refine ⟨?_, ?_, ?_, ?_⟩
  · intro bp sols h1 h2
    simp [stage_moss_files, pyTruthyStrOpt, h1, h2]
  · intro base sp h1 hbase h2
    match base with
    | none => simp [stage_moss_files, pyTruthyStrOpt, h1, h2]
    | some b =>
      by_cases hb : b = ""
      · subst hb
        simp [stage_moss_files, pyTruthyStrOpt, h1, h2]
      · have hlb := hbase b rfl hb
        simp [stage_moss_files, pyTruthyStrOpt, h1, h2, hb,
          List.isEmpty_iff, hlb]
  · intro bp h1 h2
    simp [stage_moss_files, pyTruthyStrOpt, h1, List.isEmpty_iff, h2]
  · intro bp sp h1 h2 h3 h4
    simp [stage_moss_files, pyTruthyStrOpt, h1, h2, List.isEmpty_iff,
      h3, h4]
    exact fun f hf => Or.inr hf

/-- C5 witness: a listing oracle with no matches under `base` makes staging
raise `FileNotFoundError`. -/
theorem c5_required_files_check_witness :
    stage_moss_files lfWitness "z" "java" [] 0 (some "base") none =
      Except.error PyExn.fileNotFoundError :=
  (c5_required_files_check lfWitness "z" "java" [] 0).1 "base" none
    (by decide) rfl

/-- C8: `send_to_moss` saves the HTML snapshot at
`report_path/report{count}.html`, creates the report-output directory, and —
unless `no_report` is set — also creates and downloads into the sibling
directory `report_path/report{count}`; with `no_report` set only the HTML
snapshot is produced. -/
theorem c8_report_paths (u e : Option String) (rp : String) (nr : Bool)
    (c : Nat) :
    ∃ r, send_to_moss u e rp nr c = Except.ok r
      ∧ r.savedHtmlAt = rp ++ "/report" ++ toString c ++ ".html"
      ∧ r.createdDirs =
          (if nr then [rp] else [rp, rp ++ "/report" ++ toString c])
      ∧ r.reportDownloadedTo =
          (if nr then none else some (rp ++ "/report" ++ toString c)) := by
  obtain ⟨ht, _⟩ := pyOrV_moss_truthy u e
  simp only [send_to_moss, ht, Bool.not_true, Bool.false_eq_true, if_false]
  cases nr
  · exact ⟨_, rfl, rfl, rfl, rfl⟩
  · exact ⟨_, rfl, rfl, rfl, rfl⟩

/-- C9 counterexample: the two script versions are not extensionally equal —
with the keep-original-name option set, mos_moss.py derives the folder name
`ab` for the member `ab` while run_moss.py derives `None`; and on a folder
holding one nonempty `a.txt` with an unconfigured language, mos_moss.py
selects nothing while run_moss.py selects the file. -/
theorem c9_counterexample :
    some (mos_folder_name true "ab") ≠ run_folder_name true "ab"
  ∧ list_files fsOneTxt "python" ≠ run_moss_stage_selected fsOneTxt "python" :=
  ⟨by decide, by decide⟩

/-- C9 amended: the two versions are near-identical in structure but not
duplicates of one procedure.  run_moss.py derives no folder name whenever
the keep-original-name option is set (mos_moss.py falls back to the raw
name), the two disagree when only the shorter regex matches, and their
file-selection steps disagree both for languages without configured
extensions (mos_moss.py selects nothing, run_moss.py selects every
non-hidden nonempty file) and for zero-byte files (mos_moss.py's broken
filter keeps them, run_moss.py drops them). -/
theorem c9_amended :
    (∀ fn, run_folder_name true fn = none)
  ∧ mos_folder_name true "ab" = "ab"
  ∧ run_folder_name false "x_y_12.c" = some "x_y_12"
  ∧ mos_folder_name false "x_y_12.c" = "x_y_12.c"
  ∧ list_files fsOneTxt "python" = []
  ∧ run_moss_stage_selected fsOneTxt "python" = [["a.txt"]]
  ∧ list_files fsEmptyJava "java" = [["Main.java"]]
  ∧ run_moss_stage_selected fsEmptyJava "java" = [] :=
  ⟨fun _ => rfl, rfl, rfl, rfl, rfl, rfl, rfl, rfl⟩

/-- C10: for a language whose lowercase form is not a key of
`LANGUAGE_EXTENSIONS`, the lookup in `list_files` of mos_moss.py falls back
to the empty default, no glob is performed, and the result is the empty list
whatever the folder contains. -/
theorem c10_unknown_language (fs : FS) (language : String)
    (h1 : strLower language ≠ "java") (h2 : strLower language ≠ "cpp") :
    list_files fs language = [] := by
  have e1 : (strLower language == "java") = false := by simp [h1]
  have e2 : (strLower language == "cpp") = false := by simp [h2]
  simp [list_files, langExts, LANGUAGE_EXTENSIONS, List.lookup, e1, e2]

/-- C10 witness: the language `python` on a folder with a nonempty file. -/
theorem c10_unknown_language_witness : list_files fsOneTxt "python" = [] :=
  c10_unknown_language fsOneTxt "python" (by decide) (by decide)

/-! ### Lemmas for the flattening step -/

/-- Bridge between the Boolean `List.contains` and membership. -/
theorem contains_iff_memStr {l : List String} {a : String} :
    l.contains a = true ↔ a ∈ l :=
  List.elem_iff

/-- Unfolding equation of `moveKey` on the empty path. -/
theorem moveKey_nil (n : String) (ds : List String) : moveKey n ds [] = [] :=
  rfl

/-- Unfolding equation of `moveKey` on a one-component path. -/
theorem moveKey_single (n : String) (ds : List String) (m : String) :
    moveKey n ds [m] = [m] :=
  rfl

/-- Unfolding equation of `moveKey` on a path of two or more components. -/
theorem moveKey_cons_cons (n : String) (ds : List String) (m g : String)
    (rest : FPath) :
    moveKey n ds (m :: g :: rest) =
      if m == n && ds.contains g then g :: rest else m :: g :: rest :=
  rfl

/-- Unfolding equation of `List.isPrefixOf` on two nonempty lists. -/
theorem isPrefixOf_cons_cons (a b : String) (as bs : FPath) :
    (a :: as).isPrefixOf (b :: bs) = (a == b && as.isPrefixOf bs) :=
  rfl

/-- A nonempty list is not a prefix of the empty list. -/
theorem isPrefixOf_cons_nil (a : String) (as : FPath) :
    (a :: as).isPrefixOf ([] : FPath) = false :=
  rfl

/-- The empty list is a prefix of every list. -/
theorem isPrefixOf_nil_left (bs : FPath) :
    (([] : FPath)).isPrefixOf bs = true := by
  cases bs <;> rfl

/-- With no moved children, `applyMoves` is the identity. -/
theorem applyMoves_nil_ds (n : String) (fs : FS) : applyMoves n [] fs = fs := by
  unfold applyMoves
  have h : ∀ e : FPath × Node, (moveKey n [] e.1, e.2) = e := by
    rintro ⟨k, nd⟩
    rcases k with _ | ⟨m, k⟩
    · rfl
    · rcases k with _ | ⟨g, rest⟩
      · rfl
      · rw [moveKey_cons_cons]
        have hc : (([] : List String).contains g) = false := rfl
        rw [hc, Bool.and_false]
        simp
  calc fs.map (fun e => (moveKey n [] e.1, e.2)) = fs.map id :=
        List.map_congr_left (fun e _ => h e)
    _ = fs := List.map_id fs

/-- When no listed child is named `n`, only the path `[n]` itself is sent to
`[n]` by `moveKey`. -/
theorem moveKey_eq_single_iff (n : String) (ds : List String)
    (hds : ∀ g ∈ ds, g ≠ n) (k : FPath) :
    moveKey n ds k = [n] ↔ k = [n] := by
  constructor
  · intro h
    rcases k with _ | ⟨m, k⟩
    · simp [moveKey_nil] at h
    · rcases k with _ | ⟨g, rest⟩
      · simpa [moveKey_single] using h
      · rw [moveKey_cons_cons] at h
        by_cases hc : (m == n && ds.contains g) = true
        · rw [if_pos hc] at h
          have hg : g ∈ ds := contains_iff_memStr.mp (Bool.and_eq_true_iff.mp hc).2
          have hgn : g = n := by
            have := congrArg (fun l => l.head?) h
            simpa using this
          exact absurd hgn (hds g hg)
        · rw [if_neg hc] at h
          exact absurd h (by simp)
  · rintro rfl
    rfl

/-- On the path `[n]`, `applyMoves` changes nothing (no child is named
`n`). -/
theorem findPath_applyMoves_n (n : String) (ds : List String)
    (hds : ∀ g ∈ ds, g ≠ n) :
    ∀ fs : FS, findPath (applyMoves n ds fs) [n] = findPath fs [n] := by
  intro fs
  induction fs with
  | nil => rfl
  | cons e rest ih =>
    unfold applyMoves at ih ⊢
    rw [List.map_cons, findPath_cons, findPath_cons]
    by_cases hk : (e.1 == [n]) = true
    · have he : e.1 = [n] := by simpa using hk
      have h1 : (moveKey n ds e.1 == [n]) = true := by
        rw [he, moveKey_single]
        simp
      rw [hk, h1]
      simp
    · have h1 : e.1 ≠ [n] := by simpa using hk
      have h2 : moveKey n ds e.1 ≠ [n] :=
        fun hc => h1 ((moveKey_eq_single_iff n ds hds e.1).mp hc)
      have e1 : (moveKey n ds e.1 == [n]) = false := by simpa using h2
      have e2 : (e.1 == [n]) = false := by simpa using h1
      rw [e1, e2]
      simp only [Bool.false_eq_true, if_false]
      exact ih

/-- One `shutil.move` of child `f` on top of the accumulated moves of the
children in `done` equals the accumulated moves of `done ++ [f]`. -/
theorem movePaths_applyMoves (n f : String) (done : List String)
    (hdn : ∀ g ∈ done, g ≠ n) (fs : FS) :
    movePaths [n, f] [f] (applyMoves n done fs) =
      applyMoves n (done ++ [f]) fs := by
  unfold movePaths applyMoves
  rw [List.map_map]
  apply List.map_congr_left
  rintro ⟨k, nd⟩ -
  simp only [Function.comp]
  rcases k with _ | ⟨m, k⟩
  · rw [moveKey_nil, moveKey_nil]
    rw [show (([n, f] : FPath).isPrefixOf []) = false from rfl]
    simp
  · rcases k with _ | ⟨g, rest⟩
    · rw [moveKey_single, moveKey_single]
      rw [show (([n, f] : FPath).isPrefixOf [m]) = ((n == m) && false) from rfl]
      rw [Bool.and_false]
      simp
    · rw [moveKey_cons_cons, moveKey_cons_cons]
      by_cases h1 : (m == n && done.contains g) = true
      · rw [if_pos h1]
        obtain ⟨hmn, hgd⟩ := Bool.and_eq_true_iff.mp h1
        have hg : g ∈ done := contains_iff_memStr.mp hgd
        have hgn : g ≠ n := hdn g hg
        have hpre : (([n, f] : FPath).isPrefixOf (g :: rest)) = false := by
          rw [isPrefixOf_cons_cons]
          have : (n == g) = false := by
            simp only [beq_eq_false_iff_ne, ne_eq]
            exact fun hc => hgn hc.symm
          rw [this, Bool.false_and]
        rw [hpre]
        have hg' : ((done ++ [f]).contains g) = true :=
          contains_iff_memStr.mpr (List.mem_append_left _ hg)
        rw [hmn, hg']
        simp
      · rw [if_neg h1]
        by_cases h2 : (([n, f] : FPath).isPrefixOf (m :: g :: rest)) = true
        · have h2' := h2
          rw [isPrefixOf_cons_cons] at h2'
          obtain ⟨hnm, h2''⟩ := Bool.and_eq_true_iff.mp h2'
          rw [isPrefixOf_cons_cons] at h2''
          obtain ⟨hfg, -⟩ := Bool.and_eq_true_iff.mp h2''
          have hnm' : n = m := by simpa using hnm
          have hfg' : f = g := by simpa using hfg
          rw [h2]
          have hcond : (m == n && (done ++ [f]).contains g) = true := by
            have c1 : (m == n) = true := by simp [hnm']
            have c2 : ((done ++ [f]).contains g) = true :=
              contains_iff_memStr.mpr
                (List.mem_append_right _ (by simp [hfg'.symm]))
            rw [c1, c2]
            rfl
          rw [hcond]
          simp [hfg']
        · have h2' : (([n, f] : FPath).isPrefixOf (m :: g :: rest)) = false := by
            have h := h2
            rwa [Bool.not_eq_true] at h
          rw [h2']
          have hcond : (m == n && (done ++ [f]).contains g) = false := by
            by_contra hcontra
            rw [Bool.not_eq_false] at hcontra
            obtain ⟨hmn, hgd⟩ := Bool.and_eq_true_iff.mp hcontra
            have hg : g ∈ done ++ [f] := contains_iff_memStr.mp hgd
            rcases List.mem_append.mp hg with hgdone | hgf
            · exact h1 (by rw [hmn, contains_iff_memStr.mpr hgdone]; rfl)
            · have hgf' : g = f := by simpa using hgf
              apply h2
              rw [isPrefixOf_cons_cons, isPrefixOf_cons_cons]
              have c1 : (n == m) = true := by
                have : m = n := by simpa using hmn
                simp [this]
              have c2 : (f == g) = true := by simp [hgf'.symm]
              rw [c1, c2, isPrefixOf_nil_left]
              rfl
          rw [hcond]
          simp

/-- The unique original top-level entry is `[n]`, so after the moves of any
subset of children not containing `f` (with `f` a child name other than
`n`), the path `[f]` is still free — the collision check of `shutil.move`
passes. -/
theorem findPath_applyMoves_single (fs : FS) (n f : String)
    (htop1 : ∀ e ∈ fs, e.1.length = 1 → e.1 = [n])
    (hfn : f ≠ n) (done : List String) (hfdone : f ∉ done) :
    findPath (applyMoves n done fs) [f] = none := by
  rw [findPath_eq_none_iff]
  intro e he
  unfold applyMoves at he
  obtain ⟨⟨k, nd⟩, hk0, rfl⟩ := List.mem_map.mp he
  intro hc
  rcases k with _ | ⟨m, k⟩
  · rw [moveKey_nil] at hc
    exact absurd hc (by simp)
  · rcases k with _ | ⟨g, rest⟩
    · rw [moveKey_single] at hc
      have hm : ([m] : FPath) = [n] := htop1 ⟨[m], nd⟩ hk0 rfl
      have h1 : m = f := by simpa using hc
      have h2 : m = n := by simpa using hm
      exact hfn (h1 ▸ h2)
    · rw [moveKey_cons_cons] at hc
      by_cases h1 : (m == n && done.contains g) = true
      · rw [if_pos h1] at hc
        have hg : g ∈ done :=
          contains_iff_memStr.mp (Bool.and_eq_true_iff.mp h1).2
        have hge : g = f ∧ rest = [] := by simpa using hc
        exact hfdone (hge.1 ▸ hg)
      · rw [if_neg h1] at hc
        simp at hc

/-- Statement form of `childClosed`. -/
theorem childClosed_spec {fs : FS} {n : String} (h : childClosed fs n = true) :
    ∀ e ∈ fs, ∀ f rest, e.1 = n :: f :: rest →
      (childNames fs [n]).contains f = true := by
  intro e he f rest heq
  have h1 := (List.all_eq_true.mp h) e he
  rw [heq] at h1
  have h2 : ((!(n == n)) || (childNames fs [n]).contains f) = true := h1
  simpa using h2

/-- After the moves of all children, nothing remains strictly below `[n]` —
the emptiness check of `os.rmdir` passes. -/
theorem applyMoves_no_strict_under (fs : FS) (n : String)
    (hne : ∀ g ∈ childNames fs [n], g ≠ n)
    (hanc : childClosed fs n = true) :
    (applyMoves n (childNames fs [n]) fs).any
      (fun e => [n].isPrefixOf e.1 && !(e.1 == [n])) = false := by
  rw [List.any_eq_false]
  intro x hx
  unfold applyMoves at hx
  obtain ⟨⟨k, nd⟩, hk0, rfl⟩ := List.mem_map.mp hx
  intro hcontra
  obtain ⟨hpre, hneself⟩ := Bool.and_eq_true_iff.mp hcontra
  rcases k with _ | ⟨m, k⟩
  · rw [moveKey_nil] at hpre
    exact absurd hpre (by simp [isPrefixOf_cons_nil])
  · rcases k with _ | ⟨g, rest⟩
    · rw [moveKey_single] at hpre hneself
      have hnm : n = m := by
        rw [show (([n] : FPath).isPrefixOf [m]) = ((n == m) && true) from rfl]
          at hpre
        simpa using hpre
      rw [← hnm] at hneself
      simp at hneself
    · by_cases h1 : (m == n && (childNames fs [n]).contains g) = true
      · rw [moveKey_cons_cons, if_pos h1] at hpre
        have hg : g ∈ childNames fs [n] :=
          contains_iff_memStr.mp (Bool.and_eq_true_iff.mp h1).2
        have hng : n = g := by
          rw [isPrefixOf_cons_cons] at hpre
          simpa using (Bool.and_eq_true_iff.mp hpre).1
        exact (hne g hg) hng.symm
      · rw [moveKey_cons_cons, if_neg h1] at hpre
        have hnm : n = m := by
          rw [isPrefixOf_cons_cons] at hpre
          simpa using (Bool.and_eq_true_iff.mp hpre).1
        have hgmem : (childNames fs [n]).contains g = true :=
          childClosed_spec hanc ⟨m :: g :: rest, nd⟩ hk0 g rest
            (by rw [hnm])
        apply h1
        have hm : (m == n) = true := by simp [hnm.symm]
        rw [hm, hgmem]
        rfl

/-- The final `os.rmdir` of the wrapper succeeds and yields exactly the
flattened filesystem. -/
theorem rmdirFS_applyMoves (fs : FS) (n : String)
    (hdir : findPath fs [n] = some Node.dirNode)
    (hne : ∀ g ∈ childNames fs [n], g ≠ n)
    (hanc : childClosed fs n = true) :
    rmdirFS (applyMoves n (childNames fs [n]) fs) [n] =
      Except.ok (flattenResult fs n) := by
  unfold rmdirFS
  rw [findPath_applyMoves_n n _ hne fs, hdir,
    applyMoves_no_strict_under fs n hne hanc]
  rfl

/-- Folding the `shutil.move` of every remaining child over the state left
by the already-moved children succeeds and produces the state with every
child moved. -/
theorem foldlM_move_ok (fs : FS) (n : String)
    (htop1 : ∀ e ∈ fs, e.1.length = 1 → e.1 = [n]) :
    ∀ rem done : List String,
      done ++ rem = childNames fs [n] →
      (childNames fs [n]).Nodup →
      (∀ g ∈ childNames fs [n], g ≠ n) →
      rem.foldlM (fun acc f => shutilMove acc [n, f] []) (applyMoves n done fs)
        = Except.ok (applyMoves n (childNames fs [n]) fs) := by
  intro rem
  induction rem with
  | nil =>
    intro done hsplit _ _
    rw [List.append_nil] at hsplit
    rw [hsplit]
    rfl
  | cons f rem ih =>
    intro done hsplit hnd hne
    have hfmem : f ∈ childNames fs [n] := by
      rw [← hsplit]
      exact List.mem_append_right _ (List.mem_cons_self _ _)
    have hfn : f ≠ n := hne f hfmem
    have hdn : ∀ g ∈ done, g ≠ n := fun g hg =>
      hne g (by rw [← hsplit]; exact List.mem_append_left _ hg)
    have hfdone : f ∉ done := by
      intro hf
      have hnd' : (done ++ f :: rem).Nodup := by rw [hsplit]; exact hnd
      exact (List.disjoint_of_nodup_append hnd') hf (List.mem_cons_self _ _)
    have hcol : findPath (applyMoves n done fs) [f] = none :=
      findPath_applyMoves_single fs n f htop1 hfn done hfdone
    rw [List.foldlM_cons]
    have hlast : (([n, f] : FPath).getLast?) = some f := rfl
    have hmv : shutilMove (applyMoves n done fs) [n, f] [] =
        Except.ok (applyMoves n (done ++ [f]) fs) := by
      simp only [shutilMove, hlast, List.nil_append, hcol, Option.isSome_none,
        Bool.false_eq_true, if_false]
      rw [movePaths_applyMoves n f done hdn fs]
    rw [hmv]
    exact ih (done ++ [f]) (by rw [List.append_assoc]; exact hsplit) hnd hne

/-- C7 counterexample: a destination holding exactly one wrapping folder `a`
whose single item is also named `a`.  The claim says flattening moves the
item up and removes the wrapper, but `shutil.move` finds the destination
path `a` already occupied (by the wrapper itself) and raises
`shutil.Error`, so nothing is flattened. -/
theorem c7_counterexample :
    topNames fsWrapClash = ["a"]
  ∧ findPath fsWrapClash ["a"] = some Node.dirNode
  ∧ flatten_folder fsWrapClash = Except.error PyExn.shutilError :=
  ⟨rfl, rfl, rfl⟩

/-- C7 amended: when the destination holds exactly one entry, that entry is
a directory, no item inside it shares its name (otherwise `shutil.move`
raises), `os.listdir` of it lists distinct names, and every deeper path
starts with a listed child (true of any real filesystem), `flatten_folder`
moves every item of the wrapper up to the destination and removes the
then-empty wrapper; a destination with two or more entries is left
unchanged. -/
theorem c7_amended :
    (∀ (fs : FS) (n : String),
      topNames fs = [n] →
      findPath fs [n] = some Node.dirNode →
      n ∉ childNames fs [n] →
      (childNames fs [n]).Nodup →
      childClosed fs n = true →
      flatten_folder fs = Except.ok (flattenResult fs n))
  ∧ (∀ fs : FS, 2 ≤ (topNames fs).length →
      flatten_folder fs = Except.ok fs) := by
  constructor
  · intro fs n htop hdir hnomem hnd hcc
    have htop1 : ∀ e ∈ fs, e.1.length = 1 → e.1 = [n] := by
      intro e he hlen
      rcases he1 : e.1 with _ | ⟨m, k⟩
      · rw [he1] at hlen
        simp at hlen
      · rcases k with _ | ⟨m2, k2⟩
        · have hm : m ∈ topNames fs := by
            unfold topNames
            rw [List.mem_filterMap]
            exact ⟨e, he, by rw [he1]⟩
          rw [htop] at hm
          have hmn : m = n := by simpa using hm
          rw [hmn]
        · rw [he1] at hlen
          simp at hlen
    have hne : ∀ g ∈ childNames fs [n], g ≠ n := by
      intro g hg hgn
      exact hnomem (hgn ▸ hg)
    simp only [flatten_folder, htop, hdir]
    have hfold := foldlM_move_ok fs n htop1 (childNames fs [n]) [] rfl hnd hne
    rw [applyMoves_nil_ds] at hfold
    rw [hfold]
    exact rmdirFS_applyMoves fs n hdir hne hcc
  · intro fs h2
    rcases hnames : topNames fs with _ | ⟨a, rest⟩
    · rw [hnames] at h2
      simp at h2
    · rcases rest with _ | ⟨b, rest⟩
      · rw [hnames] at h2
        simp at h2
      · simp only [flatten_folder, hnames]

/-- C7 witness: a wrapper `wrap` with a file and a subdirectory is
flattened; a destination with two top entries is untouched. -/
theorem c7_amended_witness :
    flatten_folder fsWrapOk = Except.ok (flattenResult fsWrapOk "wrap")
  ∧ flatten_folder fsMacWitness = Except.ok fsMacWitness :=
  ⟨c7_amended.1 fsWrapOk "wrap" (by decide) (by decide) (by decide)
      (by decide) (by decide),
   c7_amended.2 fsMacWitness (by decide)⟩

end MosMoss
